/-
Verification of the PSS prerender pipeline (packages/core, packages/browser,
and the ContentMerger / OriginalContentExtractor modules).

The embedding models JavaScript strings as lists of characters (`Str`).
Pattern-based tag scanning in the source is done with JavaScript regular
expressions over literal tag text; here each concrete regex is embedded as an
executable scanning function with the same leftmost-match semantics, faithful
on the character classes the regexes use.  Effectful steps (browser
navigation, file reads) are modelled by passing their outcomes as explicit
arguments.
-/
import Mathlib

set_option maxRecDepth 10000

abbrev Str : Type := List Char

/-- ASCII lowercasing, modelling the case-insensitive `i` regex flag. -/
def lowerChar (c : Char) : Char :=
  if 65 ≤ c.toNat && c.toNat ≤ 90 then Char.ofNat (c.toNat + 32) else c

/-- JavaScript `String.prototype.startsWith`: `strStarts s pat` is true when
`pat` is an initial segment of `s`. -/
def strStarts : Str → Str → Bool
  | _, [] => true
  | [], _ :: _ => false
  | c :: cs, p :: ps => c == p && strStarts cs ps

/-- Case-insensitive prefix test (ASCII). -/
def strStartsCI : Str → Str → Bool
  | _, [] => true
  | [], _ :: _ => false
  | c :: cs, p :: ps => lowerChar c == lowerChar p && strStartsCI cs ps

/-- JavaScript `String.prototype.includes`: substring test. -/
def strHasSub : Str → Str → Bool
  | [], pat => strStarts [] pat
  | c :: rest, pat => strStarts (c :: rest) pat || strHasSub rest pat

/-- Characters matched by the regex class `\s` (ASCII part). -/
def isWs (c : Char) : Bool :=
  c == ' ' || c == Char.ofNat 9 || c == Char.ofNat 10 || c == Char.ofNat 13 ||
  c == Char.ofNat 12 || c == Char.ofNat 11

/-- The quote characters matched by the regex class `["']`. -/
def isQuote (c : Char) : Bool :=
  c == '"' || c == Char.ofNat 39

/-- `split(sep)[0]`: everything before the first occurrence of `stop`. -/
def takeBefore (stop : Char) (s : Str) : Str :=
  s.takeWhile (fun c => c != stop)

/-- `PrerenderEngine.normalizeRoute` (packages/core/src/index.ts):
strip query and fragment, then force a leading slash. -/
def normalizeRoute (route : Str) : Str :=
  let clean := takeBefore '#' (takeBefore '?' route)
  if strStarts clean ['/'] then clean else '/' :: clean

lemma takeBefore_not_mem (stop : Char) (s : Str) : stop ∉ takeBefore stop s := by
  induction s with
  | nil => simp [takeBefore]
  | cons c rest ih =>
    simp only [takeBefore, List.takeWhile_cons]
    by_cases h : c = stop
    · simp [h]
    · have hc : (c != stop) = true := bne_iff_ne.mpr h
      simp only [hc, if_true]
      simp only [takeBefore] at ih
      intro hmem
      rcases List.mem_cons.mp hmem with h1 | h2
      · exact h h1.symm
      · exact ih h2

lemma takeBefore_mono (stop : Char) (s : Str) (c : Char) (h : c ∉ s) :
    c ∉ takeBefore stop s := by
  intro hmem
  exact h ((List.takeWhile_sublist _).mem hmem)

lemma takeBefore_eq_self (stop : Char) (s : Str) (h : stop ∉ s) :
    takeBefore stop s = s := by
  induction s with
  | nil => rfl
  | cons c rest ih =>
    simp only [List.mem_cons, not_or] at h
    simp only [takeBefore, List.takeWhile_cons]
    have hc : (c != stop) = true := by
      simp only [bne_iff_ne, ne_eq]
      intro he
      exact h.1 he.symm
    simp only [hc, if_true]
    simp only [takeBefore] at ih
    rw [ih h.2]

lemma normalizeRoute_starts (route : Str) :
    strStarts (normalizeRoute route) ['/'] = true := by
  unfold normalizeRoute
  by_cases h : strStarts (takeBefore '#' (takeBefore '?' route)) ['/'] = true
  · simp [h]
  · simp only [Bool.not_eq_true] at h
    simp [h, strStarts]

lemma normalizeRoute_no_query (route : Str) : '?' ∉ normalizeRoute route := by
  unfold normalizeRoute
  have h1 : '?' ∉ takeBefore '#' (takeBefore '?' route) :=
    takeBefore_mono '#' _ '?' (takeBefore_not_mem '?' route)
  by_cases h : strStarts (takeBefore '#' (takeBefore '?' route)) ['/'] = true
  · simpa [h] using h1
  · simp only [Bool.not_eq_true] at h
    simp only [h, Bool.false_eq_true, if_false, List.mem_cons, not_or]
    exact ⟨by decide, h1⟩

lemma normalizeRoute_no_fragment (route : Str) : '#' ∉ normalizeRoute route := by
  unfold normalizeRoute
  have h1 : '#' ∉ takeBefore '#' (takeBefore '?' route) :=
    takeBefore_not_mem '#' _
  by_cases h : strStarts (takeBefore '#' (takeBefore '?' route)) ['/'] = true
  · simpa [h] using h1
  · simp only [Bool.not_eq_true] at h
    simp only [h, Bool.false_eq_true, if_false, List.mem_cons, not_or]
    exact ⟨by decide, h1⟩

/-- C8: route normalization is total (a Lean function of every input string)
and idempotent, and its result always begins with `/` and contains neither a
query part (`?`) nor a fragment part (`#`). -/
theorem C8_normalizeRoute_idempotent_total (route : Str) :
    normalizeRoute (normalizeRoute route) = normalizeRoute route ∧
    strStarts (normalizeRoute route) ['/'] = true ∧
    '?' ∉ normalizeRoute route ∧ '#' ∉ normalizeRoute route := by
  refine ⟨?_, normalizeRoute_starts route, normalizeRoute_no_query route,
    normalizeRoute_no_fragment route⟩
  have hq := normalizeRoute_no_query route
  have hf := normalizeRoute_no_fragment route
  have hs := normalizeRoute_starts route
  conv_lhs => rw [normalizeRoute]
  rw [takeBefore_eq_self _ _ hq]
  rw [takeBefore_eq_self _ _ hf]
  simp [hs]

/-! ### ContentMerger (packages/browser ContentMerger.ts)

Each JavaScript regex used by the merger is embedded as an executable
scanner with the same leftmost-match, greedy/lazy backtracking semantics. -/

/-- Leftmost case-insensitive occurrence of `pat`: returns the part before
the match and the remainder starting at the match. -/
def splitAtSubCI (pat : Str) : Str → Option (Str × Str)
  | [] => if strStartsCI [] pat then some ([], []) else none
  | c :: rest =>
    if strStartsCI (c :: rest) pat then some ([], c :: rest)
    else match splitAtSubCI pat rest with
      | some (a, b) => some (c :: a, b)
      | none => none

/-- Split at the first occurrence of a single character (remainder includes
the character). -/
def takeToChar (stop : Char) : Str → Option (Str × Str)
  | [] => none
  | c :: rest =>
    if c == stop then some ([], c :: rest)
    else match takeToChar stop rest with
      | some (a, b) => some (c :: a, b)
      | none => none

/-- Matcher for a regex of shape `lit[^>]*>` (case-insensitive): the match
runs from the leftmost occurrence of `lit` to the first following `>`.
Returns (before, match, after). -/
def matchTagFrom (lit : Str) (s : Str) : Option (Str × Str × Str) :=
  match splitAtSubCI lit s with
  | none => none
  | some (before, rest) =>
    match takeToChar '>' (rest.drop lit.length) with
    | none => none
    | some (mid, tail) =>
      some (before, rest.take lit.length ++ mid ++ ['>'], tail.drop 1)

def headIsWs : Str → Bool
  | c :: _ => isWs c
  | [] => false

/-- Leftmost position where `<meta` (case-insensitive) is followed by a
whitespace character, as required by `<meta\s+`. -/
def findMetaStart : Str → Option (Str × Str)
  | [] => none
  | c :: rest =>
    if strStartsCI (c :: rest) ("<meta".toList) && headIsWs ((c :: rest).drop 5) then
      some ([], c :: rest)
    else match findMetaStart rest with
      | some (a, b) => some (c :: a, b)
      | none => none

/-- One match of the merger regex `<meta\s+[^>]*\/?>`: from a `<meta` + space
start to the first following `>`. -/
def matchMetaTag (s : Str) : Option (Str × Str × Str) :=
  match findMetaStart s with
  | none => none
  | some (before, rest) =>
    match takeToChar '>' (rest.drop 6) with
    | none => none
    | some (mid, tail) =>
      some (before, rest.take 6 ++ mid ++ ['>'], tail.drop 1)

def scanMetaGo : Nat → Str → List Str
  | 0, _ => []
  | fuel + 1, s =>
    match matchMetaTag s with
    | none => []
    | some (_, tag, after) => tag :: scanMetaGo fuel after

/-- `html.match(/<meta\s+[^>]*\/?>/gi)`: the list of meta-tag matches, in
document order. -/
def scanMetaTags (s : Str) : List Str := scanMetaGo s.length s

def quoteAt : Str → Bool
  | c :: _ => isQuote c
  | [] => false

/-- `parseMetaTag` step 1: the regex `charset=["']([^"']*?)["']`. -/
def findCharset : Str → Option Str
  | [] => none
  | c :: rest =>
    if strStartsCI (c :: rest) ("charset=".toList) && quoteAt ((c :: rest).drop 8) &&
        (((c :: rest).drop 9).any isQuote) then
      some (((c :: rest).drop 9).takeWhile (fun d => !isQuote d))
    else findCharset rest

/-- Try `content=["']([^"']*?)["']` at offset `t` of `s`. -/
def contentAt (s : Str) (t : Nat) : Option Str :=
  let u := s.drop t
  if strStartsCI u ("content=".toList) && quoteAt (u.drop 8) && ((u.drop 9).any isQuote) then
    some ((u.drop 9).takeWhile (fun d => !isQuote d))
  else none

/-- Greedy backtracking of `[^>]*content=["']([^"']*?)["']`: the engine tries
the largest offset first. -/
def findContentBack (s : Str) : Nat → Option Str
  | 0 => contentAt s 0
  | t + 1 =>
    match contentAt s (t + 1) with
    | some v => some v
    | none => findContentBack s t

/-- Matcher for `lit["']([^"']*?)["'][^>]*content=["']([^"']*?)["']`
(case-insensitive), the shape shared by the http-equiv / property / name
branches of `parseMetaTag`. -/
def findAttrPair (lit : Str) : Str → Option (Str × Str)
  | [] => none
  | c :: rest =>
    if strStartsCI (c :: rest) lit && quoteAt ((c :: rest).drop lit.length) then
      let r1 := (c :: rest).drop (lit.length + 1)
      if r1.any isQuote then
        let g1 := r1.takeWhile (fun d => !isQuote d)
        let afterQ1 := r1.drop (g1.length + 1)
        let free := afterQ1.takeWhile (fun d => d != '>')
        match findContentBack afterQ1 free.length with
        | some g2 => some (g1, g2)
        | none => findAttrPair lit rest
      else findAttrPair lit rest
    else findAttrPair lit rest

/-- `ContentMerger.parseMetaTag`: extract (key, content) from one meta-tag
string, trying charset, http-equiv, property, then name forms. -/
def parseMetaTag (tag : Str) : Option (Str × Str) :=
  match findCharset tag with
  | some v => some ("charset".toList, v)
  | none =>
  match findAttrPair ("http-equiv=".toList) tag with
  | some (k, v) => some ("http-equiv:".toList ++ k, v)
  | none =>
  match findAttrPair ("property=".toList) tag with
  | some (k, v) => some (k, v)
  | none =>
  match findAttrPair ("name=".toList) tag with
  | some (k, v) => some (k, v)
  | none => none

def metaKeyLookup (key : Str) (tag : Str) : Option Str :=
  match parseMetaTag tag with
  | some kv => if kv.1 == key then some kv.2 else none
  | none => none

/-- `ContentMerger.getExistingMetaContent`: content of the first meta tag in
the document whose parsed key equals `key`. -/
def getExistingMetaContent (html key : Str) : Option Str :=
  (scanMetaTags html).findSome? (metaKeyLookup key)

/-- One pass of the global replace `<meta\s+[^>]*\/?>\s*` in
`removeExistingMetaTag` (the match includes trailing whitespace; a match
parsing to `key` is replaced by the empty string). -/
def removeMetaGo (key : Str) : Nat → Str → Str
  | 0, s => s
  | fuel + 1, s =>
    match matchMetaTag s with
    | none => s
    | some (before, tag, after) =>
      let ws := after.takeWhile isWs
      let matched := tag ++ ws
      let after2 := after.drop ws.length
      match parseMetaTag matched with
      | some kv =>
        if kv.1 == key then before ++ removeMetaGo key fuel after2
        else before ++ matched ++ removeMetaGo key fuel after2
      | none => before ++ matched ++ removeMetaGo key fuel after2

/-- `ContentMerger.removeExistingMetaTag`. -/
def removeExistingMetaTag (html key : Str) : Str :=
  removeMetaGo key html.length html

/-- `ContentMerger.escapeHtml` character map. -/
def escapeChar (c : Char) : Str :=
  if c == '&' then "&amp;".toList
  else if c == '<' then "&lt;".toList
  else if c == '>' then "&gt;".toList
  else if c == '"' then "&quot;".toList
  else if c == Char.ofNat 39 then "&#39;".toList
  else [c]

/-- `ContentMerger.escapeHtml`. -/
def escapeHtml (s : Str) : Str :=
  s.foldr (fun c acc => escapeChar c ++ acc) []

/-- `ContentMerger.generateMetaTag`. -/
def generateMetaTag (key content : Str) : Str :=
  let e := escapeHtml content
  if key == "charset".toList then
    "<meta charset=\"".toList ++ e ++ "\" />".toList
  else if strStarts key ("http-equiv:".toList) then
    "<meta http-equiv=\"".toList ++ key.drop 11 ++ "\" content=\"".toList ++ e ++ "\" />".toList
  else if strStarts key ("og:".toList) || strStarts key ("twitter:".toList) ||
      strStarts key ("fb:".toList) then
    "<meta property=\"".toList ++ key ++ "\" content=\"".toList ++ e ++ "\" />".toList
  else
    "<meta name=\"".toList ++ key ++ "\" content=\"".toList ++ e ++ "\" />".toList

/-- `ContentMerger.injectIntoHead`: before `</head>`, else after `<head...>`,
else a new head after `<html...>`, else prepended to the document. -/
def injectIntoHead (html content : Str) : Str :=
  match splitAtSubCI ("</head>".toList) html with
  | some (before, rest) => before ++ "    ".toList ++ content ++ "\n  ".toList ++ rest
  | none =>
  match matchTagFrom ("<head".toList) html with
  | some (before, tag, after) => before ++ tag ++ "\n    ".toList ++ content ++ after
  | none =>
  match matchTagFrom ("<html".toList) html with
  | some (before, tag, after) =>
      before ++ tag ++ "\n  <head>\n    ".toList ++ content ++ "\n  </head>".toList ++ after
  | none => "<head>\n  ".toList ++ content ++ "\n</head>\n".toList ++ html

/-- Loop body of `ContentMerger.injectMetaTags`: the existing-tag comparison
is made against the original `html` argument, removals accumulate on the
modified document. -/
def injectStep (html : Str) (acc : Str × List (Str × Str)) (kv : Str × Str) :
    Str × List (Str × Str) :=
  match getExistingMetaContent html kv.1 with
  | none => (acc.1, acc.2 ++ [kv])
  | some existing =>
    if existing == kv.2 then acc
    else (removeExistingMetaTag acc.1 kv.1, acc.2 ++ [kv])

/-- `ContentMerger.injectMetaTags`: compare each resolved key against the
document, remove stale tags, and inject the needed tags before `</head>`. -/
def injectMetaTags (html : Str) (metaTags : List (Str × Str)) : Str :=
  let folded := metaTags.foldl (injectStep html) (html, [])
  if folded.2.isEmpty then folded.1
  else injectIntoHead folded.1
    (List.intercalate ("\n    ".toList) (folded.2.map (fun kv => generateMetaTag kv.1 kv.2)))

/-- Try the regex `<title[^>]*>([^<]*)<\/title>` at the start of `s`:
returns (match, title text, remainder). -/
def tryTitleAt (s : Str) : Option (Str × Str × Str) :=
  if strStartsCI s ("<title".toList) then
    match takeToChar '>' (s.drop 6) with
    | none => none
    | some (mid, tail) =>
      let afterGt := tail.drop 1
      let text := afterGt.takeWhile (fun c => c != '<')
      let rest2 := afterGt.drop text.length
      if strStartsCI rest2 ("</title>".toList) then
        some (s.take 6 ++ mid ++ ['>'] ++ text ++ rest2.take 8, text, rest2.drop 8)
      else none
  else none

/-- Leftmost match of `<title[^>]*>([^<]*)<\/title>`:
returns (before, match, title text, after). -/
def matchTitleTag : Str → Option (Str × Str × Str × Str)
  | [] => none
  | c :: rest =>
    match tryTitleAt (c :: rest) with
    | some (m, t, after) => some ([], m, t, after)
    | none =>
      match matchTitleTag rest with
      | some (b, m, t, a) => some (c :: b, m, t, a)
      | none => none

/-- `ContentMerger.injectTitle`: replace the existing title element (the
source replaces the first occurrence of the matched text, which is the match
site), else inject a new one into the head. -/
def injectTitle (html title : Str) : Str :=
  let titleTag := "<title>".toList ++ escapeHtml title ++ "</title>".toList
  match matchTitleTag html with
  | some (before, _, _, after) => before ++ titleTag ++ after
  | none => injectIntoHead html titleTag

/-- `ContentMerger.injectBodyContent`: after the opening `<body...>` tag,
else appended to the document. -/
def injectBodyContent (html content : Str) : Str :=
  match matchTagFrom ("<body".toList) html with
  | some (before, tag, after) => before ++ tag ++ '\n' :: (content ++ after)
  | none => html ++ '\n' :: content

/-- `MergedContent` (ContentMerger.ts). -/
structure MergedContent where
  title : Option Str
  meta : List (Str × Str)
  head : Str
  body : Str

/-- `ContentMerger.applyMergedContent`: each piece is applied only when
truthy (non-empty). -/
def applyMergedContent (html : Str) (mc : MergedContent) : Str :=
  let h1 := match mc.title with
    | some t => if t.isEmpty then html else injectTitle html t
    | none => html
  let h2 := if mc.meta.isEmpty then h1 else injectMetaTags h1 mc.meta
  let h3 := if mc.head.isEmpty then h2 else injectIntoHead h2 mc.head
  let h4 := if mc.body.isEmpty then h3 else injectBodyContent h3 mc.body
  h4

lemma injectMetaTags_foldl_skip (html : Str) (m : List (Str × Str)) (acc : Str)
    (H : ∀ kv ∈ m, getExistingMetaContent html kv.1 = some kv.2) :
    m.foldl (injectStep html) (acc, []) = (acc, []) := by
  induction m generalizing acc with
  | nil => rfl
  | cons kv rest ih =>
    have hkv := H kv (List.mem_cons_self kv rest)
    have hstep : injectStep html (acc, []) kv = (acc, []) := by
      simp [injectStep, hkv]
    rw [List.foldl_cons, hstep]
    exact ih acc (fun kv2 h2 => H kv2 (List.mem_cons_of_mem kv h2))

/-- C1 (amended): meta injection is a no-op on its own output whenever each
resolved key reads back from the first output with exactly its mapped value —
in particular for escape-free values injected into well-formed documents.
Under that read-back condition a second application of
`ContentMerger.injectMetaTags` with the same map is byte-identical. -/
theorem C1_meta_merge_idem (html : Str) (m : List (Str × Str))
    (H : ∀ kv ∈ m, getExistingMetaContent (injectMetaTags html m) kv.1 = some kv.2) :
    injectMetaTags (injectMetaTags html m) m = injectMetaTags html m := by
  have hfold := injectMetaTags_foldl_skip (injectMetaTags html m) m (injectMetaTags html m) H
  conv_lhs => rw [injectMetaTags]
  simp [hfold]

/-- C1 witness: a concrete document and meta map satisfying the read-back
condition, on which the second application is verified to be the identity. -/
theorem C1_meta_merge_idem_witness :
    (∀ kv ∈ [("description".toList, "hello".toList)],
      getExistingMetaContent
        (injectMetaTags ("<head></head>".toList) [("description".toList, "hello".toList)])
        kv.1 = some kv.2) ∧
    injectMetaTags
      (injectMetaTags ("<head></head>".toList) [("description".toList, "hello".toList)])
      [("description".toList, "hello".toList)] =
    injectMetaTags ("<head></head>".toList) [("description".toList, "hello".toList)] :=
  ⟨by decide, C1_meta_merge_idem ("<head></head>".toList)
    [("description".toList, "hello".toList)] (by decide)⟩

/-- C1 counterexample: with the resolved map `{k ↦ a&b}` the injected tag
stores the HTML-escaped content `a&amp;b`, so the second application sees a
differing value, removes the tag (together with following whitespace) and
re-inserts it, and the output is not byte-identical to the first output. -/
theorem C1_counterexample_meta_idem :
    injectMetaTags (injectMetaTags ("<head></head>".toList) [("k".toList, "a&b".toList)])
      [("k".toList, "a&b".toList)] ≠
    injectMetaTags ("<head></head>".toList) [("k".toList, "a&b".toList)] := by
  decide

/-- C10: `ContentMerger.applyMergedContent` leaves every HTML document
unchanged when the merged content is empty (no title, empty meta map, empty
head fragment, empty body fragment). -/
theorem C10_applyMergedContent_empty_id (html : Str) :
    applyMergedContent html ⟨none, [], [], []⟩ = html := rfl

/-! ### Route configuration resolution (packages/core/src/index.ts)

`routeMatches` builds `new RegExp('^' + pattern.replace(/\*/g, '.*') + '$')`
and tests the route.  The embedding interprets that constructed anchored
expression directly: `*` matches any substring, `.` any single character,
every other pattern character itself (faithful for patterns that contain no
further regex metacharacters). -/

/-- `.*` consumes any (possibly empty) leading substring before the rest of
the pattern (`f`) matches the remaining text. -/
def patMatchStar (f : Str → Bool) : Str → Bool
  | [] => f []
  | c :: s2 => f (c :: s2) || patMatchStar f s2

def patMatch : Str → Str → Bool
  | [], s => s.isEmpty
  | p :: ps, s =>
    if p == '*' then patMatchStar (patMatch ps) s
    else
      match s with
      | [] => false
      | c :: s2 => (p == '.' || p == c) && patMatch ps s2

/-- `PrerenderEngine.routeMatches`: exact match, global wildcard, or wildcard
pattern matched as an anchored expression. -/
def routeMatches (route pattern : Str) : Bool :=
  if pattern == route then true
  else if pattern == ['*'] then true
  else if pattern.contains '*' then patMatch pattern route
  else false

/-- Injection payload carried by a route override; its contents are opaque to
configuration resolution (only presence matters to the `||` fallbacks). -/
abbrev InjectPayload : Type := List (Str × Str)

/-- `RouteConfig` (packages/types): a pattern plus optional overrides. -/
structure RouteConfig where
  route : Str
  waitUntil : Option Str := none
  timeout : Option Int := none
  extraDelay : Option Int := none
  blockDomains : Option (List Str) := none
  retry : Option Int := none
  strip : Option (List Str) := none
  inject : Option InjectPayload := none
deriving DecidableEq

/-- `PrerenderEngine.getRouteConfig`: three passes — exact matches, then
wildcard patterns other than the bare `*`, then the bare `*`. -/
def getRouteConfig (configs : List RouteConfig) (route : Str) : Option RouteConfig :=
  match configs.find? (fun c => c.route == route) with
  | some c => some c
  | none =>
    match configs.find?
        (fun c => c.route != ['*'] && c.route.contains '*' && routeMatches route c.route) with
    | some c => some c
    | none => configs.find? (fun c => c.route == ['*'])

/-- Priority rank of a config for a route, as described by the spec:
exact (3) > specific wildcard (2) > global wildcard (1) > no match (0). -/
def matchRank (route : Str) (c : RouteConfig) : Nat :=
  if c.route = route then 3
  else if c.route ≠ ['*'] ∧ c.route.contains '*' = true ∧ routeMatches route c.route = true then 2
  else if c.route = ['*'] then 1
  else 0

lemma matchRank_le_three (route : Str) (c : RouteConfig) : matchRank route c ≤ 3 := by
  unfold matchRank
  split
  · exact Nat.le_refl 3
  · split
    · omega
    · split <;> omega

lemma matchRank_le_two (route : Str) (c : RouteConfig) (h : c.route ≠ route) :
    matchRank route c ≤ 2 := by
  unfold matchRank
  simp only [h, if_false]
  split
  · omega
  · split <;> omega

lemma matchRank_le_one (route : Str) (c : RouteConfig) (h : c.route ≠ route)
    (h2 : ¬(c.route ≠ ['*'] ∧ c.route.contains '*' = true ∧ routeMatches route c.route = true)) :
    matchRank route c ≤ 1 := by
  unfold matchRank
  simp only [h, if_false, h2]
  split <;> omega

lemma routeMatches_of_exact (route : Str) (c : RouteConfig) (h : c.route = route) :
    routeMatches route c.route = true := by
  unfold routeMatches
  simp [h]

lemma routeMatches_of_star (route : Str) (c : RouteConfig) (h : c.route = ['*']) :
    routeMatches route c.route = true := by
  unfold routeMatches
  by_cases he : c.route == route
  · simp [he]
  · simp only [he, Bool.false_eq_true, if_false]
    simp [h]

def blogWildcardCfg : RouteConfig := { route := "/blog/*".toList }

def blogPostCfg : RouteConfig := { route := "/blog/post/1".toList }

def starCfg : RouteConfig := { route := "*".toList }

def exampleRouteConfigs : List RouteConfig := [blogWildcardCfg, blogPostCfg, starCfg]

/-- C3: `getRouteConfig` returns a matching override of maximal priority rank
(exact > specific wildcard > bare `*` > none), and returns none only when no
override matches; on the spec example (overrides `/blog/*`, `/blog/post/1`,
`*`) route `/blog/post/1` resolves to the exact entry, `/blog/x` to
`/blog/*`, and `/contact` to `*`. -/
theorem C3_getRouteConfig_priority :
    (∀ configs route c, getRouteConfig configs route = some c →
       c ∈ configs ∧ routeMatches route c.route = true ∧
       ∀ c2 ∈ configs, routeMatches route c2.route = true →
         matchRank route c2 ≤ matchRank route c) ∧
    (∀ configs route, getRouteConfig configs route = none →
       ∀ c ∈ configs, routeMatches route c.route = false) ∧
    (getRouteConfig exampleRouteConfigs ("/blog/post/1".toList) = some blogPostCfg ∧
     getRouteConfig exampleRouteConfigs ("/blog/x".toList) = some blogWildcardCfg ∧
     getRouteConfig exampleRouteConfigs ("/contact".toList) = some starCfg) := by
  refine ⟨?_, ?_, by decide, by decide, by decide⟩
  · intro configs route c h
    unfold getRouteConfig at h
    rcases h1 : configs.find? (fun x => x.route == route) with _ | c1
    · rw [h1] at h
      have hne : ∀ x ∈ configs, x.route ≠ route := by
        intro x hx he
        have := List.find?_eq_none.mp h1 x hx
        simp [he] at this
      rcases h2 : configs.find?
          (fun x => x.route != ['*'] && x.route.contains '*' && routeMatches route x.route)
          with _ | c2
      · rw [h2] at h
        have hmem := List.mem_of_find?_eq_some h
        have hp := List.find?_some h
        simp only [beq_iff_eq] at hp
        have hnospec : ∀ x ∈ configs,
            ¬(x.route ≠ ['*'] ∧ x.route.contains '*' = true ∧
              routeMatches route x.route = true) := by
          intro x hx hcontr
          have := List.find?_eq_none.mp h2 x hx
          simp only [Bool.and_eq_true, bne_iff_ne] at this
          exact this ⟨⟨hcontr.1, hcontr.2.1⟩, hcontr.2.2⟩
        refine ⟨hmem, routeMatches_of_star route c hp, ?_⟩
        intro c2 hc2 _
        have hr1 : matchRank route c = 1 := by
          unfold matchRank
          rw [if_neg (hne c hmem), if_neg (hnospec c hmem), if_pos hp]
        rw [hr1]
        exact matchRank_le_one route c2 (hne c2 hc2) (hnospec c2 hc2)
      · rw [h2] at h
        have hc2c : c2 = c := by injection h
        subst hc2c
        have hmem := List.mem_of_find?_eq_some h2
        have hp := List.find?_some h2
        simp only [Bool.and_eq_true, bne_iff_ne] at hp
        refine ⟨hmem, hp.2, ?_⟩
        intro x hx _
        have hr2 : matchRank route c2 = 2 := by
          unfold matchRank
          have hcond : c2.route ≠ ['*'] ∧ c2.route.contains '*' = true ∧
              routeMatches route c2.route = true := ⟨hp.1.1, hp.1.2, hp.2⟩
          rw [if_neg (hne c2 hmem), if_pos hcond]
        rw [hr2]
        exact matchRank_le_two route x (hne x hx)
    · rw [h1] at h
      have hc1c : c1 = c := by injection h
      subst hc1c
      have hmem := List.mem_of_find?_eq_some h1
      have hp := List.find?_some h1
      simp only [beq_iff_eq] at hp
      refine ⟨hmem, routeMatches_of_exact route c1 hp, ?_⟩
      intro x hx _
      have hr3 : matchRank route c1 = 3 := by
        unfold matchRank
        simp only [hp, if_true]
      rw [hr3]
      exact matchRank_le_three route x
  · intro configs route h c hc
    unfold getRouteConfig at h
    rcases h1 : configs.find? (fun x => x.route == route) with _ | c1
    · rw [h1] at h
      rcases h2 : configs.find?
          (fun x => x.route != ['*'] && x.route.contains '*' && routeMatches route x.route)
          with _ | c2
      · rw [h2] at h
        have hne : c.route ≠ route := by
          intro he
          have := List.find?_eq_none.mp h1 c hc
          simp [he] at this
        have hnstar : c.route ≠ ['*'] := by
          intro he
          have := List.find?_eq_none.mp h c hc
          simp [he] at this
        have hnospec := List.find?_eq_none.mp h2 c hc
        simp only [Bool.and_eq_true, bne_iff_ne] at hnospec
        unfold routeMatches
        have hbne : (c.route == route) = false := beq_eq_false_iff_ne.mpr hne
        have hbstar : (c.route == ['*']) = false := beq_eq_false_iff_ne.mpr hnstar
        simp only [hbne, Bool.false_eq_true, if_false, hbstar]
        by_cases hcont : c.route.contains '*' = true
        · rw [if_pos hcont]
          by_cases hpm : patMatch c.route route = true
          · exfalso
            apply hnospec
            refine ⟨⟨hnstar, hcont⟩, ?_⟩
            unfold routeMatches
            simp only [hbne, Bool.false_eq_true, if_false, hbstar]
            rw [if_pos hcont]
            exact hpm
          · simpa using hpm
        · rw [if_neg hcont]
      · rw [h2] at h
        exact absurd h (by simp)
    · rw [h1] at h
      exact absurd h (by simp)

/-- C3 witness: the priority bound applied at the example configuration and
route `/blog/x`, whose resolved override is the specific wildcard entry. -/
theorem C3_getRouteConfig_priority_witness :
    blogWildcardCfg ∈ exampleRouteConfigs ∧
    routeMatches ("/blog/x".toList) blogWildcardCfg.route = true ∧
    matchRank ("/blog/x".toList) starCfg ≤ matchRank ("/blog/x".toList) blogWildcardCfg := by
  have h := C3_getRouteConfig_priority.1 exampleRouteConfigs ("/blog/x".toList)
    blogWildcardCfg (by decide)
  exact ⟨h.1, h.2.1, h.2.2 starCfg (by decide) (by decide)⟩

/-! ### Effective configuration (PrerenderEngine.getEffectiveConfig)

Each field is selected by JavaScript `routeConfig?.field || global.field`:
an absent override object, an absent field, or a falsy field value (0 for
numbers, the empty string for strings) falls back to the global value;
arrays and objects are always truthy when present. -/

/-- `a?.f || g` for string-valued fields (the empty string is falsy). -/
def jsOrStr (o : Option Str) (g : Str) : Str :=
  match o with
  | some v => if v = [] then g else v
  | none => g

/-- `a?.f || g` for number-valued fields (0 is falsy). -/
def jsOrInt (o : Option Int) (g : Int) : Int :=
  match o with
  | some v => if v = 0 then g else v
  | none => g

/-- `a?.f || g` for array/object-valued fields (present means truthy). -/
def jsOrVal {α : Type} (o : Option α) (g : α) : α := o.getD g

/-- The global settings that `getEffectiveConfig` reads from `this.config`. -/
structure GlobalConfig where
  waitUntil : Str
  timeout : Int
  extraDelay : Int
  blockDomains : List Str
  retry : Int
  strip : List Str
  inject : InjectPayload
deriving DecidableEq

/-- The record returned by `getEffectiveConfig`. -/
structure EffectiveConfig where
  waitUntil : Str
  timeout : Int
  extraDelay : Int
  blockDomains : List Str
  retry : Int
  strip : List Str
  inject : InjectPayload
deriving DecidableEq

/-- `PrerenderEngine.getEffectiveConfig`. -/
def getEffectiveConfig (configs : List RouteConfig) (g : GlobalConfig) (route : Str) :
    EffectiveConfig :=
  let rc := getRouteConfig configs route
  { waitUntil := jsOrStr (rc.bind RouteConfig.waitUntil) g.waitUntil
    timeout := jsOrInt (rc.bind RouteConfig.timeout) g.timeout
    extraDelay := jsOrInt (rc.bind RouteConfig.extraDelay) g.extraDelay
    blockDomains := jsOrVal (rc.bind RouteConfig.blockDomains) g.blockDomains
    retry := jsOrInt (rc.bind RouteConfig.retry) g.retry
    strip := jsOrVal (rc.bind RouteConfig.strip) g.strip
    inject := jsOrVal (rc.bind RouteConfig.inject) g.inject }

/-- C7 (amended): each effective field comes from the single best-matching
override exactly when that field is present there with a truthy value
(non-zero number, non-empty string; arrays and objects are truthy whenever
present); a field that is absent or has a falsy value (0 or the empty
string) falls back to the global value.  With no matching override every
field is global, and the result depends only on the chosen override (no
layering across several overrides). -/
theorem C7_effective_config_fields :
    (∀ configs g route c, getRouteConfig configs route = some c →
      ((c.waitUntil = none ∨ c.waitUntil = some []) →
        (getEffectiveConfig configs g route).waitUntil = g.waitUntil) ∧
      (∀ v, c.waitUntil = some v → v ≠ [] →
        (getEffectiveConfig configs g route).waitUntil = v) ∧
      ((c.timeout = none ∨ c.timeout = some 0) →
        (getEffectiveConfig configs g route).timeout = g.timeout) ∧
      (∀ v, c.timeout = some v → v ≠ 0 →
        (getEffectiveConfig configs g route).timeout = v) ∧
      ((c.extraDelay = none ∨ c.extraDelay = some 0) →
        (getEffectiveConfig configs g route).extraDelay = g.extraDelay) ∧
      (∀ v, c.extraDelay = some v → v ≠ 0 →
        (getEffectiveConfig configs g route).extraDelay = v) ∧
      ((c.retry = none ∨ c.retry = some 0) →
        (getEffectiveConfig configs g route).retry = g.retry) ∧
      (∀ v, c.retry = some v → v ≠ 0 →
        (getEffectiveConfig configs g route).retry = v) ∧
      (c.blockDomains = none →
        (getEffectiveConfig configs g route).blockDomains = g.blockDomains) ∧
      (∀ v, c.blockDomains = some v →
        (getEffectiveConfig configs g route).blockDomains = v) ∧
      (c.strip = none → (getEffectiveConfig configs g route).strip = g.strip) ∧
      (∀ v, c.strip = some v → (getEffectiveConfig configs g route).strip = v) ∧
      (c.inject = none → (getEffectiveConfig configs g route).inject = g.inject) ∧
      (∀ v, c.inject = some v → (getEffectiveConfig configs g route).inject = v)) ∧
    (∀ configs g route, getRouteConfig configs route = none →
      getEffectiveConfig configs g route =
        ⟨g.waitUntil, g.timeout, g.extraDelay, g.blockDomains, g.retry, g.strip, g.inject⟩) ∧
    (∀ configs configs2 g route,
      getRouteConfig configs route = getRouteConfig configs2 route →
      getEffectiveConfig configs g route = getEffectiveConfig configs2 g route) := by
  refine ⟨?_, ?_, ?_⟩
  · intro configs g route c h
    refine ⟨?_, ?_, ?_, ?_, ?_, ?_, ?_, ?_, ?_, ?_, ?_, ?_, ?_, ?_⟩
    · rintro (hf | hf) <;> simp [getEffectiveConfig, h, hf, jsOrStr]
    · intro v hf hv
      simp [getEffectiveConfig, h, hf, jsOrStr, hv]
    · rintro (hf | hf) <;> simp [getEffectiveConfig, h, hf, jsOrInt]
    · intro v hf hv
      simp [getEffectiveConfig, h, hf, jsOrInt, hv]
    · rintro (hf | hf) <;> simp [getEffectiveConfig, h, hf, jsOrInt]
    · intro v hf hv
      simp [getEffectiveConfig, h, hf, jsOrInt, hv]
    · rintro (hf | hf) <;> simp [getEffectiveConfig, h, hf, jsOrInt]
    · intro v hf hv
      simp [getEffectiveConfig, h, hf, jsOrInt, hv]
    · intro hf
      simp [getEffectiveConfig, h, hf, jsOrVal]
    · intro v hf
      simp [getEffectiveConfig, h, hf, jsOrVal]
    · intro hf
      simp [getEffectiveConfig, h, hf, jsOrVal]
    · intro v hf
      simp [getEffectiveConfig, h, hf, jsOrVal]
    · intro hf
      simp [getEffectiveConfig, h, hf, jsOrVal]
    · intro v hf
      simp [getEffectiveConfig, h, hf, jsOrVal]
  · intro configs g route h
    simp [getEffectiveConfig, h, jsOrStr, jsOrInt, jsOrVal]
  · intro configs configs2 g route h
    simp [getEffectiveConfig, h]

def c7Override : RouteConfig :=
  { route := "/a".toList, timeout := some 7, blockDomains := some [] }

def c7Global : GlobalConfig :=
  { waitUntil := "networkidle".toList, timeout := 5000, extraDelay := 0,
    blockDomains := ["ads.example".toList], retry := 2, strip := [], inject := [] }

/-- C7 witness: for the override `{route: "/a", timeout: 7, blockDomains: []}`
the effective timeout is 7 and the effective block list is the (present,
empty) override array, while the absent retry falls back to the global. -/
theorem C7_effective_config_fields_witness :
    (getEffectiveConfig [c7Override] c7Global ("/a".toList)).timeout = 7 ∧
    (getEffectiveConfig [c7Override] c7Global ("/a".toList)).blockDomains = [] ∧
    (getEffectiveConfig [c7Override] c7Global ("/a".toList)).retry = c7Global.retry := by
  have h := C7_effective_config_fields.1 [c7Override] c7Global ("/a".toList)
    c7Override (by decide)
  exact ⟨h.2.2.2.1 7 (by decide) (by decide),
    h.2.2.2.2.2.2.2.2.2.1 [] (by decide),
    h.2.2.2.2.2.2.1 (Or.inl (by decide))⟩

def c7ZeroCfg : RouteConfig := { route := "/a".toList, timeout := some 0 }

/-- C7 counterexample: the override `{route: "/a", timeout: 0}` is the chosen
best match and carries the field `timeout`, yet the effective timeout is the
global 5000, not the override value 0 — present-but-falsy fields do not take
effect, refuting "falls back exactly when the field is absent". -/
theorem C7_counterexample_falsy_override :
    getRouteConfig [c7ZeroCfg] ("/a".toList) = some c7ZeroCfg ∧
    c7ZeroCfg.timeout = some 0 ∧
    (getEffectiveConfig [c7ZeroCfg] c7Global ("/a".toList)).timeout = 5000 ∧
    c7Global.timeout = 5000 ∧ (0 : Int) ≠ 5000 := by
  decide

/-! ### Snapshot acquisition retry/fallback loop
(`BrowserManager.takeSnapshot`, packages/browser/src/index.ts)

The loop is modelled over an oracle `o` giving the outcome of each physical
navigation attempt (`none` = success, `some msg` = failure with error message
`msg`).  The attempt counter, the `attemptedFallback` flag and the current
wait strategy evolve exactly as in the source: a failure on a non-final
attempt (`attempt < retry`) under `networkidle` with auto-fallback enabled
and a timeout-looking message switches the strategy to `load` and decrements
the counter before the loop increment, so that the extra attempt is free. -/

inductive WaitU where
  | networkidle
  | load
  | domcontentloaded
deriving DecidableEq

/-- `lastError.message.includes('TimeoutError') || includes('Timeout')`. -/
def isTimeoutMsg (m : Str) : Bool :=
  strHasSub m ("TimeoutError".toList) || strHasSub m ("Timeout".toList)

/-- Observable trace of one `takeSnapshot` call: the wait strategy used by
each physical attempt, whether it succeeded, whether the fallback fired, and
the last error. -/
structure SnapTrace where
  strategies : List WaitU
  succeeded : Bool
  usedFallback : Bool
  lastErr : Option Str
deriving DecidableEq

/-- The `for (attempt = 0; attempt <= retry; attempt++)` body of
`takeSnapshot`, with `p` the physical attempt index consumed from the
oracle. -/
def takeLoop (o : Nat → Option Str) (retry : Nat) (autoFb : Bool) (attempt : Nat)
    (fb : Bool) (strat : WaitU) (last : Option Str) (p : Nat) : SnapTrace :=
  if _h : retry < attempt then
    { strategies := [], succeeded := false, usedFallback := fb, lastErr := last }
  else
    match o p with
    | none => { strategies := [strat], succeeded := true, usedFallback := fb, lastErr := last }
    | some msg =>
      if hcond : attempt < retry ∧ autoFb = true ∧ fb = false ∧
          strat = WaitU.networkidle ∧ isTimeoutMsg msg = true then
        let t := takeLoop o retry autoFb attempt true WaitU.load (some msg) (p + 1)
        { t with strategies := strat :: t.strategies }
      else
        let t := takeLoop o retry autoFb (attempt + 1) fb strat (some msg) (p + 1)
        { t with strategies := strat :: t.strategies }
termination_by (retry + 1 - attempt) + (if fb then 0 else 1)
decreasing_by
  · rw [hcond.2.2.1]
    simp only [if_true, if_false, Bool.false_eq_true]
    omega
  · omega

/-- `BrowserManager.takeSnapshot` of the loop state at entry. -/
def takeSnapshotModel (o : Nat → Option Str) (retry : Nat) (autoFb : Bool)
    (strat0 : WaitU) : SnapTrace :=
  takeLoop o retry autoFb 0 false strat0 none 0

lemma takeLoop_plain (o : Nat → Option Str) (R : Nat) (autoFb fb : Bool) (strat : WaitU)
    (hcond : autoFb = false ∨ fb = true) (hall : ∀ j, (o j).isSome = true) :
    ∀ n a last p, R + 1 - a = n →
      (takeLoop o R autoFb a fb strat last p).strategies = List.replicate n strat ∧
      (takeLoop o R autoFb a fb strat last p).succeeded = false ∧
      (takeLoop o R autoFb a fb strat last p).usedFallback = fb := by
  intro n
  induction n with
  | zero =>
    intro a last p hn
    have ha : R < a := by omega
    rw [takeLoop]
    simp [ha]
  | succ k ih =>
    intro a last p hn
    have ha : ¬ R < a := by omega
    rcases hmsg : o p with _ | msg
    · exact absurd (hall p) (by simp [hmsg])
    · have hfail : ¬(a < R ∧ autoFb = true ∧ fb = false ∧
          strat = WaitU.networkidle ∧ isTimeoutMsg msg = true) := by
        rcases hcond with h1 | h1 <;> simp [h1]
      have hstep := ih (a + 1) (some msg) (p + 1) (by omega)
      rw [takeLoop]
      simp only [ha, dif_neg, hmsg, hfail, dif_pos, if_neg, List.replicate_succ]
      refine ⟨?_, ?_, ?_⟩
      · simp [hstep.1]
      · simp [hstep.2.1]
      · simp [hstep.2.2]

lemma takeLoop_phase1 (o : Nat → Option Str) (R i : Nat) (hiR : i < R)
    (hall : ∀ j, (o j).isSome = true)
    (hpre : ∀ j, j < i → ∀ m, o j = some m → isTimeoutMsg m = false)
    (hto : ∀ m, o i = some m → isTimeoutMsg m = true) :
    ∀ n a last, a ≤ i → i - a = n →
      (takeLoop o R true a false WaitU.networkidle last a).strategies =
        List.replicate (i - a + 1) WaitU.networkidle ++
          List.replicate (R + 1 - i) WaitU.load ∧
      (takeLoop o R true a false WaitU.networkidle last a).succeeded = false ∧
      (takeLoop o R true a false WaitU.networkidle last a).usedFallback = true := by
  intro n
  induction n with
  | zero =>
    intro a last ha hn
    have hai : a = i := by omega
    subst hai
    have hnR : ¬ R < a := by omega
    rcases hmsg : o a with _ | msg
    · exact absurd (hall a) (by simp [hmsg])
    · have htm : isTimeoutMsg msg = true := hto msg hmsg
      have hcond : a < R ∧ true = true ∧ false = false ∧
          WaitU.networkidle = WaitU.networkidle ∧ isTimeoutMsg msg = true :=
        ⟨hiR, rfl, rfl, rfl, htm⟩
      have hrest := takeLoop_plain o R true true WaitU.load (Or.inr rfl) hall
        (R + 1 - a) a (some msg) (a + 1) rfl
      rw [takeLoop]
      simp only [hnR, dif_neg, hmsg, hcond, dif_pos, if_pos]
      refine ⟨?_, ?_, ?_⟩
      · simp [hrest.1, Nat.sub_self]
      · simp [hrest.2.1]
      · simp [hrest.2.2]
  | succ k ih =>
    intro a last ha hn
    have hai : a < i := by omega
    have hnR : ¬ R < a := by omega
    rcases hmsg : o a with _ | msg
    · exact absurd (hall a) (by simp [hmsg])
    · have htm : isTimeoutMsg msg = false := hpre a hai msg hmsg
      have hfail : ¬(a < R ∧ True ∧ True ∧ True ∧ isTimeoutMsg msg = true) := by
        simp [htm]
      have hstep := ih (a + 1) (some msg) (by omega) (by omega)
      rw [takeLoop]
      rw [dif_neg hnR]
      simp only [hmsg]
      rw [dif_neg hfail]
      have harith : i - a + 1 = (i - (a + 1) + 1) + 1 := by omega
      refine ⟨?_, ?_, ?_⟩
      · show WaitU.networkidle ::
            (takeLoop o R true (a + 1) false WaitU.networkidle (some msg) (a + 1)).strategies = _
        rw [hstep.1, harith]
        simp [List.replicate_succ]
      · show (takeLoop o R true (a + 1) false WaitU.networkidle (some msg) (a + 1)).succeeded
          = false
        exact hstep.2.1
      · show (takeLoop o R true (a + 1) false WaitU.networkidle (some msg) (a + 1)).usedFallback
          = true
        exact hstep.2.2

/-- C2 (amended): with wait strategy `networkidle` and auto-fallback enabled,
when every physical attempt fails and the first timeout-style failure occurs
at attempt index `i` with a retry slot remaining (`i < retry`), exactly one
automatic downgrade to `load` happens: attempts `0..i` run under
`networkidle`, all later attempts run under `load`, and the acquisition
performs `retry + 2` physical attempts in total — one more than the
`retry + 1` performed without the fallback — so the downgraded attempt
consumes no retry slot and the downgrade happens at most once. -/
theorem C2_networkidle_fallback (o : Nat → Option Str) (R i : Nat)
    (hiR : i < R)
    (hall : ∀ j, (o j).isSome = true)
    (hpre : ∀ j, j < i → ∀ m, o j = some m → isTimeoutMsg m = false)
    (hto : ∀ m, o i = some m → isTimeoutMsg m = true) :
    (takeSnapshotModel o R true WaitU.networkidle).strategies =
      List.replicate (i + 1) WaitU.networkidle ++
        List.replicate (R + 1 - i) WaitU.load ∧
    (takeSnapshotModel o R true WaitU.networkidle).succeeded = false ∧
    (takeSnapshotModel o R true WaitU.networkidle).usedFallback = true ∧
    (takeSnapshotModel o R true WaitU.networkidle).strategies.length = R + 2 ∧
    (takeSnapshotModel o R false WaitU.networkidle).strategies.length = R + 1 := by
  have h1 := takeLoop_phase1 o R i hiR hall hpre hto i 0 none (by omega) (by omega)
  have h2 := takeLoop_plain o R false false WaitU.networkidle (Or.inl rfl) hall
    (R + 1) 0 none 0 (by omega)
  rw [takeSnapshotModel, takeSnapshotModel]
  simp only [Nat.sub_zero] at h1
  refine ⟨h1.1, h1.2.1, h1.2.2, ?_, ?_⟩
  · rw [h1.1]
    simp only [List.length_append, List.length_replicate]
    omega
  · rw [h2.1]
    simp

/-- C2 witness: with `retry = 1` and every attempt timing out, the run is
`networkidle` then two `load` attempts (3 = retry + 2 physical attempts,
fallback used once), versus 2 attempts with auto-fallback disabled. -/
theorem C2_networkidle_fallback_witness :
    (takeSnapshotModel (fun _ => some ("Timeout".toList)) 1 true WaitU.networkidle).strategies =
      List.replicate 1 WaitU.networkidle ++ List.replicate 2 WaitU.load ∧
    (takeSnapshotModel (fun _ => some ("Timeout".toList)) 1 true WaitU.networkidle).succeeded
      = false ∧
    (takeSnapshotModel (fun _ => some ("Timeout".toList)) 1 true WaitU.networkidle).usedFallback
      = true ∧
    (takeSnapshotModel (fun _ => some ("Timeout".toList)) 1 true
      WaitU.networkidle).strategies.length = 3 ∧
    (takeSnapshotModel (fun _ => some ("Timeout".toList)) 1 false
      WaitU.networkidle).strategies.length = 2 := by
  have h := C2_networkidle_fallback (fun _ => some ("Timeout".toList)) 1 0
    (by omega) (fun j => rfl)
    (fun j hj m hm => absurd hj (by omega))
    (fun m hm => by
      injection hm with h2
      rw [← h2]
      decide)
  simpa using h

/-- C2 counterexample: with `retry = 0` (a reachable configuration) the first
and only attempt times out under `networkidle`, yet no downgrade happens at
all — the fallback is gated by `attempt < retry` — refuting "the first
timeout failure triggers exactly one automatic downgrade". -/
theorem C2_counterexample_retry_zero :
    (takeSnapshotModel (fun _ => some ("Timeout".toList)) 0 true WaitU.networkidle).usedFallback
      = false ∧
    (takeSnapshotModel (fun _ => some ("Timeout".toList)) 0 true WaitU.networkidle).strategies
      = [WaitU.networkidle] ∧
    isTimeoutMsg ("Timeout".toList) = true := by
  have hrun : takeSnapshotModel (fun _ => some ("Timeout".toList)) 0 true WaitU.networkidle =
      { strategies := [WaitU.networkidle], succeeded := false, usedFallback := false,
        lastErr := some ("Timeout".toList) } := by
    rw [takeSnapshotModel]
    rw [takeLoop]
    rw [dif_neg (by omega : ¬(0 : Nat) < 0)]
    simp only []
    rw [dif_neg (by simp : ¬((0 : Nat) < 0 ∧ True ∧ True ∧ True ∧
      isTimeoutMsg ("Timeout".toList) = true))]
    rw [takeLoop]
    rw [dif_pos (by omega : (0 : Nat) < 1)]
  rw [hrun]
  exact ⟨rfl, rfl, by decide⟩

/-! ### Single navigation attempt (`BrowserManager.attemptSnapshot`)

The outcome of `page.goto` is modelled explicitly: it raises, returns null,
or returns a response with a status, status text and headers.  The error
thrown for a rejected response carries the status, status text and headers
(the source embeds them in the message text and in the appended
`Response details` JSON); they are modelled as structured fields. -/

inductive GotoOutcome where
  | raised (msg : Str)
  | noResponse
  | response (status : Int) (statusText : Str) (headers : List (Str × Str))
deriving DecidableEq

/-- Diagnostic data carried by a navigation failure. -/
structure NavError where
  navMessage : Str
  status : Option Int
  statusText : Option Str
  headers : Option (List (Str × Str))
deriving DecidableEq

/-- The navigation/response-check phase of `attemptSnapshot`: a goto
exception or a null response throws, a response with status other than 200
throws with the response details, and otherwise the attempt proceeds to
settling and extraction with the response. -/
def attemptNavigation (g : GotoOutcome) :
    Except NavError (Int × Str × List (Str × Str)) :=
  match g with
  | .raised m => .error ⟨m, none, none, none⟩
  | .noResponse =>
      .error ⟨"Failed to load page - no response received".toList, none, none, none⟩
  | .response s t hs =>
      if s = 200 then .ok (s, t, hs)
      else .error ⟨"HTTP ".toList ++ (toString s).toList ++ ": ".toList ++ t,
        some s, some t, some hs⟩

def isNavOk (r : Except NavError (Int × Str × List (Str × Str))) : Bool :=
  match r with
  | .ok _ => true
  | .error _ => false

/-- C5 (amended): a navigation attempt fails exactly when the browser raises,
no response is received, or the HTTP status differs from 200 (not merely from
the 2xx class); a rejected response's error carries its status, status text
and headers, and a status-200 response proceeds with its data. -/
theorem C5_attempt_failure_condition (g : GotoOutcome) :
    (isNavOk (attemptNavigation g) = false ↔
      (∃ m, g = .raised m) ∨ g = .noResponse ∨
      (∃ s t hs, g = .response s t hs ∧ s ≠ 200)) ∧
    (∀ s t hs, g = .response s t hs → s ≠ 200 →
      attemptNavigation g = .error ⟨"HTTP ".toList ++ (toString s).toList ++
        ": ".toList ++ t, some s, some t, some hs⟩) ∧
    (∀ s t hs, g = .response s t hs → s = 200 →
      attemptNavigation g = .ok (s, t, hs)) := by
  refine ⟨?_, ?_, ?_⟩
  · cases g with
    | raised m => simp [attemptNavigation, isNavOk]
    | noResponse => simp [attemptNavigation, isNavOk]
    | response s t hs =>
      by_cases hs200 : s = 200
      · simp [attemptNavigation, isNavOk, hs200]
      · simp only [attemptNavigation, if_neg hs200, isNavOk]
        constructor
        · intro _
          right; right
          exact ⟨s, t, hs, rfl, hs200⟩
        · intro _
          trivial
  · intro s t hs hg hne
    subst hg
    simp [attemptNavigation, if_neg hne]
  · intro s t hs hg h200
    subst hg
    simp [attemptNavigation, h200]

/-- C5 witness: a 404 response fails with the diagnostic fields populated,
and a 200 response proceeds. -/
theorem C5_attempt_failure_condition_witness :
    attemptNavigation (.response 404 ("Not Found".toList) []) =
      .error ⟨"HTTP ".toList ++ (toString (404 : Int)).toList ++ ": ".toList ++
        "Not Found".toList, some 404, some ("Not Found".toList), some []⟩ ∧
    attemptNavigation (.response 200 ("OK".toList) []) =
      .ok (200, "OK".toList, []) := by
  exact ⟨(C5_attempt_failure_condition (.response 404 ("Not Found".toList) [])).2.1
      404 ("Not Found".toList) [] rfl (by decide),
    (C5_attempt_failure_condition (.response 200 ("OK".toList) [])).2.2
      200 ("OK".toList) [] rfl rfl⟩

/-- C5 counterexample: status 204 is a 2xx success, yet the attempt throws —
the source accepts only `status === 200` — refuting "on any 2xx response the
attempt proceeds to settling and extraction". -/
theorem C5_counterexample_204 :
    isNavOk (attemptNavigation (.response 204 ("No Content".toList) [])) = false ∧
    (200 : Int) ≤ 204 ∧ (204 : Int) < 300 := by
  refine ⟨?_, by norm_num, by norm_num⟩
  rfl

/-! ### OriginalContentExtractor (packages/browser/src/OriginalContentExtractor.ts) -/

/-- `OriginalContent` (packages/types): optional title/head/body and a meta
map. -/
structure OriginalContent where
  title : Option Str
  meta : List (Str × Str)
  head : Option Str
  body : Option Str
deriving DecidableEq

/-- The record returned by the catch branches of both extraction
strategies. -/
def emptyOriginalContent : OriginalContent :=
  { title := none, meta := [], head := none, body := none }

/-- JavaScript `String.prototype.trim` (ASCII whitespace). -/
def strTrim (s : Str) : Str :=
  ((s.dropWhile isWs).reverse.dropWhile isWs).reverse

/-- `<head[^>]*>([\s\S]*?)<\/head>` (and the `<body...>` analogue): the lazy
group runs from the first `>` after the leftmost open tag to the first
closing tag. -/
def matchSection (openLit closeLit : Str) (html : Str) : Option Str :=
  match splitAtSubCI openLit html with
  | none => none
  | some (_, rest) =>
    match takeToChar '>' (rest.drop openLit.length) with
    | none => none
    | some (_, tail) =>
      match splitAtSubCI closeLit (tail.drop 1) with
      | none => none
      | some (inner, _) => some inner

/-- `<meta\s+([^>]+)>` used by `parseHtmlContent`: like the merger's scanner
but the attribute group must be non-empty (`>` at least two characters after
`<meta`). -/
def matchMetaTagX (s : Str) : Option (Str × Str) :=
  match findMetaStart s with
  | none => none
  | some (_, rest) =>
    match takeToChar '>' (rest.drop 7) with
    | none => none
    | some (mid, tail) =>
      some ((rest.drop 5).take 2 ++ mid, tail.drop 1)

def scanMetaAttrsGo : Nat → Str → List Str
  | 0, _ => []
  | fuel + 1, s =>
    match matchMetaTagX s with
    | none => []
    | some (attrs, after) => attrs :: scanMetaAttrsGo fuel after

/-- `html.matchAll(/<meta\s+([^>]+)>/gi)`: attribute groups in order. -/
def scanMetaAttrs (s : Str) : List Str := scanMetaAttrsGo s.length s

/-- `(?:name|property|http-equiv)=["']([^"']+)["']` — alternatives tried in
order at each position, content non-empty. -/
def findNameAttr : Str → Option Str
  | [] => none
  | c :: rest =>
    if strStartsCI (c :: rest) ("name=".toList) && quoteAt ((c :: rest).drop 5) &&
        !(quoteAt ((c :: rest).drop 6)) && (((c :: rest).drop 6).any isQuote) then
      some (((c :: rest).drop 6).takeWhile (fun d => !isQuote d))
    else if strStartsCI (c :: rest) ("property=".toList) && quoteAt ((c :: rest).drop 9) &&
        !(quoteAt ((c :: rest).drop 10)) && (((c :: rest).drop 10).any isQuote) then
      some (((c :: rest).drop 10).takeWhile (fun d => !isQuote d))
    else if strStartsCI (c :: rest) ("http-equiv=".toList) && quoteAt ((c :: rest).drop 11) &&
        !(quoteAt ((c :: rest).drop 12)) && (((c :: rest).drop 12).any isQuote) then
      some (((c :: rest).drop 12).takeWhile (fun d => !isQuote d))
    else findNameAttr rest

/-- `content=["']([^"']+)["']` with non-empty content. -/
def findContentAttr : Str → Option Str
  | [] => none
  | c :: rest =>
    if strStartsCI (c :: rest) ("content=".toList) && quoteAt ((c :: rest).drop 8) &&
        !(quoteAt ((c :: rest).drop 9)) && (((c :: rest).drop 9).any isQuote) then
      some (((c :: rest).drop 9).takeWhile (fun d => !isQuote d))
    else findContentAttr rest

/-- `OriginalContentExtractor.parseHtmlContent`: pattern-extract title, meta
map, head and body from markup. -/
def parseHtmlContent (html : Str) : OriginalContent :=
  let title := (matchTitleTag html).map (fun r => strTrim r.2.2.1)
  let meta := (scanMetaAttrs html).foldl (fun acc attrs =>
    match findNameAttr attrs, findContentAttr attrs with
    | some n, some cv => acc ++ [(n, cv)]
    | _, _ => acc) []
  let head := (matchSection ("<head".toList) ("</head>".toList) html).map strTrim
  let body := (matchSection ("<body".toList) ("</body>".toList) html).map strTrim
  { title := title, meta := meta, head := head, body := body }

/-- `OriginalContentExtractor.extractFromStaticFile`, with the `readFile`
outcome passed explicitly: any read error degrades to the empty record
instead of raising. -/
def extractFromStaticFile (readResult : Except Str Str) : OriginalContent :=
  match readResult with
  | .ok html => parseHtmlContent html
  | .error _ => emptyOriginalContent

/-- `OriginalContentExtractor.extractFromPreJavaScript`, with the navigation
plus DOM-evaluation outcome passed explicitly: any failure degrades to the
empty record instead of raising. -/
def extractFromPreJavaScript (navResult : Except Str OriginalContent) : OriginalContent :=
  match navResult with
  | .ok content => content
  | .error _ => emptyOriginalContent

/-- C9: for every failure message, static-file extraction with an unreadable
file and pre-javascript extraction with a failed navigation both return the
empty content record (no title, empty meta map, no head, no body) — both
functions are total, so extraction never raises and never aborts a route. -/
theorem C9_extraction_failure_empty :
    (∀ e : Str, extractFromStaticFile (.error e) = emptyOriginalContent) ∧
    (∀ e : Str, extractFromPreJavaScript (.error e) = emptyOriginalContent) ∧
    emptyOriginalContent.title = none ∧ emptyOriginalContent.meta = [] ∧
    emptyOriginalContent.head = none ∧ emptyOriginalContent.body = none :=
  ⟨fun _ => rfl, fun _ => rfl, rfl, rfl, rfl, rfl⟩

/-! ### Link crawling (`PrerenderEngine.crawlLinks`)

The crawl fetch (`takeSnapshot` + `extractLinksFromHtml`) is abstracted by an
oracle `fetchLinks : Str → Option (List Str)` — `none` models a caught fetch
failure (which yields no links), `some links` the links extracted from the
rendered page.  The source processes dequeued batches of up to `concurrency`
entries concurrently on one event loop; each link's visited-check-and-add is
a single synchronous block, so processing entries one at a time in FIFO
order is one admissible interleaving, and the deduplication property is
independent of the interleaving. -/

structure CrawlState where
  visited : List Str
  discovered : List Str
  queue : List (Str × Nat)
  fetched : List Str

/-- The routes carried by a queue. -/
def routesOf : List (Str × Nat) → List Str
  | [] => []
  | (r, _) :: rest => r :: routesOf rest

lemma routesOf_append (a b : List (Str × Nat)) :
    routesOf (a ++ b) = routesOf a ++ routesOf b := by
  induction a with
  | nil => rfl
  | cons x rest ih =>
    obtain ⟨r, d⟩ := x
    simp [routesOf, ih]

/-- Per-link body of the crawl loop: normalize, then enqueue (and mark
visited and discovered) only if not already visited and not excluded. -/
def enqueueLink (excluded : Str → Bool) (depth : Nat) (st : CrawlState) (l : Str) :
    CrawlState :=
  if normalizeRoute l ∉ st.visited ∧ excluded (normalizeRoute l) = false then
    { visited := st.visited ++ [normalizeRoute l]
      discovered := st.discovered ++ [normalizeRoute l]
      queue := st.queue ++ [(normalizeRoute l, depth + 1)]
      fetched := st.fetched }
  else st

/-- The `while (queue.length > 0)` loop of `crawlLinks`: entries at depth ≥
maxDepth are dropped without fetching; otherwise the route is fetched (the
`takeSnapshot` call, recorded in `fetched`) and its extracted links are
enqueued. -/
def crawlLoop (fetchLinks : Str → Option (List Str)) (excluded : Str → Bool)
    (maxDepth : Nat) : Nat → CrawlState → CrawlState
  | 0, st => st
  | fuel + 1, st =>
    match st.queue with
    | [] => st
    | (r, d) :: rest =>
      if maxDepth ≤ d then
        crawlLoop fetchLinks excluded maxDepth fuel
          { visited := st.visited, discovered := st.discovered, queue := rest,
            fetched := st.fetched }
      else
        match fetchLinks r with
        | none =>
          crawlLoop fetchLinks excluded maxDepth fuel
            { visited := st.visited, discovered := st.discovered, queue := rest,
              fetched := st.fetched ++ [r] }
        | some links =>
          crawlLoop fetchLinks excluded maxDepth fuel
            (links.foldl (enqueueLink excluded d)
              { visited := st.visited, discovered := st.discovered, queue := rest,
                fetched := st.fetched ++ [r] })

/-- `PrerenderEngine.crawlLinks`: every seed is normalized, enqueued at depth
0 and marked visited (without deduplication among the seeds themselves). -/
def crawlLinks (fetchLinks : Str → Option (List Str)) (excluded : Str → Bool)
    (maxDepth fuel : Nat) (seeds : List Str) : CrawlState :=
  crawlLoop fetchLinks excluded maxDepth fuel
    { visited := seeds.map normalizeRoute, discovered := [],
      queue := (seeds.map normalizeRoute).map (fun r => (r, 0)), fetched := [] }

/-- Crawl-loop invariant: the routes fetched so far together with the queued
routes are pairwise distinct, and all of them are in the visited set. -/
def CrawlInv (st : CrawlState) : Prop :=
  (st.fetched ++ routesOf st.queue).Nodup ∧
  (∀ r ∈ st.fetched, r ∈ st.visited) ∧
  (∀ r ∈ routesOf st.queue, r ∈ st.visited)

lemma enqueueLink_inv (excluded : Str → Bool) (d : Nat) (l : Str) :
    ∀ st : CrawlState, CrawlInv st →
      CrawlInv (enqueueLink excluded d st l) ∧
      (enqueueLink excluded d st l).fetched = st.fetched := by
  rintro ⟨v, disc, q, f⟩ ⟨hnd, hfv, hqv⟩
  unfold enqueueLink
  split
  case isTrue hc =>
    refine ⟨⟨?_, ?_, ?_⟩, rfl⟩
    · show (f ++ routesOf (q ++ [(normalizeRoute l, d + 1)])).Nodup
      rw [routesOf_append, ← List.append_assoc]
      refine List.Nodup.append hnd (List.nodup_singleton _) ?_
      intro x hx hx1
      simp only [routesOf, List.mem_singleton] at hx1
      subst hx1
      rcases List.mem_append.mp hx with hmem | hmem
      · exact hc.1 (hfv _ hmem)
      · exact hc.1 (hqv _ hmem)
    · intro r hr
      exact List.mem_append_left _ (hfv r hr)
    · show ∀ r ∈ routesOf (q ++ [(normalizeRoute l, d + 1)]), r ∈ v ++ [normalizeRoute l]
      rw [routesOf_append]
      intro r hr
      rcases List.mem_append.mp hr with hmem | hmem
      · exact List.mem_append_left _ (hqv r hmem)
      · simp only [routesOf, List.mem_singleton] at hmem
        subst hmem
        exact List.mem_append_right _ (List.mem_singleton_self _)
  case isFalse hc =>
    exact ⟨⟨hnd, hfv, hqv⟩, rfl⟩

lemma enqueue_foldl_inv (excluded : Str → Bool) (d : Nat) (links : List Str) :
    ∀ st : CrawlState, CrawlInv st →
      CrawlInv (links.foldl (enqueueLink excluded d) st) := by
  induction links with
  | nil => intro st hinv; exact hinv
  | cons l rest ih =>
    intro st hinv
    exact ih _ (enqueueLink_inv excluded d l st hinv).1

lemma crawlLoop_inv (fetchLinks : Str → Option (List Str)) (excluded : Str → Bool)
    (maxDepth : Nat) : ∀ fuel (st : CrawlState), CrawlInv st →
      CrawlInv (crawlLoop fetchLinks excluded maxDepth fuel st) := by
  intro fuel
  induction fuel with
  | zero => intro st hinv; exact hinv
  | succ k ih =>
    rintro ⟨v, disc, q, f⟩ ⟨hnd, hfv, hqv⟩
    rcases q with _ | ⟨⟨r, d⟩, rest⟩
    · exact ⟨hnd, hfv, hqv⟩
    · simp only [routesOf] at hnd hqv
      have hnd1 : (f ++ routesOf rest).Nodup :=
        hnd.sublist ((List.sublist_cons_self r (routesOf rest)).append_left f)
      have hnd2 : ((f ++ [r]) ++ routesOf rest).Nodup := by
        rw [List.append_assoc]
        exact hnd
      have hrv : r ∈ v := hqv r (List.mem_cons_self _ _)
      have hqv2 : ∀ x ∈ routesOf rest, x ∈ v := fun x hx => hqv x (List.mem_cons_of_mem _ hx)
      show CrawlInv
        (if maxDepth ≤ d then
          crawlLoop fetchLinks excluded maxDepth k
            { visited := v, discovered := disc, queue := rest, fetched := f }
        else
          match fetchLinks r with
          | none =>
            crawlLoop fetchLinks excluded maxDepth k
              { visited := v, discovered := disc, queue := rest, fetched := f ++ [r] }
          | some links =>
            crawlLoop fetchLinks excluded maxDepth k
              (links.foldl (enqueueLink excluded d)
                { visited := v, discovered := disc, queue := rest, fetched := f ++ [r] }))
      have hinv2 : CrawlInv
          { visited := v, discovered := disc, queue := rest, fetched := f ++ [r] } := by
        refine ⟨hnd2, ?_, hqv2⟩
        intro x hx
        rcases List.mem_append.mp hx with hmem | hmem
        · exact hfv x hmem
        · simp only [List.mem_singleton] at hmem
          subst hmem
          exact hrv
      by_cases hd : maxDepth ≤ d
      · rw [if_pos hd]
        exact ih _ ⟨hnd1, hfv, hqv2⟩
      · rw [if_neg hd]
        rcases fetchLinks r with _ | links
        · exact ih _ hinv2
        · exact ih _ (enqueue_foldl_inv excluded d links _ hinv2)

lemma routesOf_map_zero (xs : List Str) :
    routesOf (xs.map (fun r => (r, 0))) = xs := by
  induction xs with
  | nil => rfl
  | cons x rest ih => simp [routesOf, ih]

/-- C4 (amended): within one `crawlLinks` invocation whose normalized seed
list is duplicate-free, no normalized route is fetched (has a snapshot taken
for it) more than once, for every fetch oracle, exclusion predicate, depth
bound and fuel: seeds are marked visited when enqueued at depth 0, and a
discovered link is enqueued only if its normalized form is not yet visited,
being added to the visited set at the same time.  (The seed initialization
itself does not deduplicate, so duplicated seeds are each fetched.) -/
theorem C4_crawl_no_refetch (fetchLinks : Str → Option (List Str))
    (excluded : Str → Bool) (maxDepth fuel : Nat) (seeds : List Str)
    (hseeds : (seeds.map normalizeRoute).Nodup) :
    (crawlLinks fetchLinks excluded maxDepth fuel seeds).fetched.Nodup := by
  have hinit : CrawlInv
      { visited := seeds.map normalizeRoute, discovered := [],
        queue := (seeds.map normalizeRoute).map (fun r => (r, 0)), fetched := [] } := by
    refine ⟨?_, ?_, ?_⟩
    · show ([] ++ routesOf ((seeds.map normalizeRoute).map (fun r => (r, 0)))).Nodup
      rw [routesOf_map_zero]
      simpa using hseeds
    · intro r hr
      simp at hr
    · show ∀ r ∈ routesOf ((seeds.map normalizeRoute).map (fun r => (r, 0))),
        r ∈ seeds.map normalizeRoute
      rw [routesOf_map_zero]
      exact fun r hr => hr
  have hfin := crawlLoop_inv fetchLinks excluded maxDepth fuel _ hinit
  exact hfin.1.of_append_left

/-- C4 witness: a concrete crawl (two distinct seeds, one discovered link)
in which every route is fetched at most once. -/
theorem C4_crawl_no_refetch_witness :
    ((["/".toList, "/about".toList].map normalizeRoute).Nodup) ∧
    (crawlLinks (fun _ => some ["/about".toList]) (fun _ => false) 2 9
      ["/".toList, "/about".toList]).fetched.Nodup :=
  ⟨by decide, C4_crawl_no_refetch (fun _ => some ["/about".toList]) (fun _ => false) 2 9
    ["/".toList, "/about".toList] (by decide)⟩

/-- C4 counterexample: the seed loop pushes every seed and marks it visited
without checking the visited set first, so the duplicated seed `/a` is
fetched twice in one invocation, refuting "no normalized route is fetched
more than once". -/
theorem C4_counterexample_duplicate_seeds :
    (crawlLinks (fun _ => some []) (fun _ => false) 1 3
      ["/a".toList, "/a".toList]).fetched = ["/a".toList, "/a".toList] ∧
    ¬ (crawlLinks (fun _ => some []) (fun _ => false) 1 3
      ["/a".toList, "/a".toList]).fetched.Nodup := by
  constructor
  · decide
  · decide

/-! ### Link filtering (`PrerenderEngine.extractLinksFromHtml` loop body)

For each anchor `href`, the source (in order): skips hrefs starting with
`http` or `//`; skips fragment hrefs starting with `#`; unless special
protocols are enabled, skips hrefs that start with — and then any that
contain — a denylisted scheme token; resolves `new URL(href, baseUrl)`
(a parse failure skips); unless special protocols are enabled skips
non-http(s) protocols; and pushes the pathname when the origin equals the
base origin or special protocols are enabled.  `new URL` is modelled for
scheme detection, absolute http(s) URLs and base-relative path resolution
(without dot-segment or percent-encoding normalization, which the claims do
not exercise). -/

def lowerStr (s : Str) : Str := s.map lowerChar

def skipProtocols : List Str :=
  ["mailto:", "tel:", "sms:", "fax:", "ftp:", "sftp:", "ftps:", "javascript:",
   "data:", "blob:", "file:", "about:", "chrome:", "chrome-extension:",
   "moz-extension:", "webkit:", "resource:"].map String.toList

def isAlphaChar (c : Char) : Bool :=
  (97 ≤ c.toNat && c.toNat ≤ 122) || (65 ≤ c.toNat && c.toNat ≤ 90)

def isSchemeChar (c : Char) : Bool :=
  isAlphaChar c || (48 ≤ c.toNat && c.toNat ≤ 57) || c == '+' || c == '-' || c == '.'

def schemeSplitGo : Str → Str → Option (Str × Str)
  | _, [] => none
  | acc, c :: rest =>
    if c == ':' then some (acc.reverse, rest)
    else if isSchemeChar c then schemeSplitGo (c :: acc) rest
    else none

/-- Leading `scheme:` of a URL string (lowercased), if any. -/
def schemeOf (s : Str) : Option (Str × Str) :=
  match s with
  | [] => none
  | c :: rest => if isAlphaChar c then (schemeSplitGo [lowerChar c] rest).map
      (fun x => (lowerStr x.1, x.2)) else none

structure URLParts where
  protocol : Str
  origin : Str
  pathname : Str
deriving DecidableEq

/-- Absolute `http(s)://host/path` parsing: origin is scheme + lowercased
host (with port), pathname is the path part without query/fragment. -/
def parseAbsHttp (scheme rest : Str) : Option URLParts :=
  if strStarts rest ("//".toList) then
    let host := (rest.drop 2).takeWhile (fun c => c != '/' && c != '?' && c != '#')
    let more := (rest.drop 2).dropWhile (fun c => c != '/' && c != '?' && c != '#')
    let path0 := more.takeWhile (fun c => c != '?' && c != '#')
    if host.isEmpty then none
    else
      some { protocol := scheme ++ [':'],
             origin := scheme ++ "://".toList ++ lowerStr host,
             pathname := if path0.isEmpty then ['/'] else path0 }
  else none

/-- Path prefix of `p` up to and including its last `/`. -/
def dirOf (p : Str) : Str := (p.reverse.dropWhile (fun c => c != '/')).reverse

/-- `new URL(baseUrl)`: only absolute http(s) bases parse. -/
def parseBaseURL (base : Str) : Option URLParts :=
  match schemeOf base with
  | some (sch, rest) =>
    if sch == "http".toList || sch == "https".toList then parseAbsHttp sch rest else none
  | none => none

/-- `new URL(href, baseUrl)` over the modelled subset. -/
def jsURL (href base : Str) : Option URLParts :=
  match schemeOf href with
  | some (sch, rest) =>
    if sch == "http".toList || sch == "https".toList then parseAbsHttp sch rest
    else some { protocol := sch ++ [':'], origin := "null".toList,
                pathname := rest.takeWhile (fun c => c != '?' && c != '#') }
  | none =>
    match parseBaseURL base with
    | none => none
    | some b =>
      let clean := href.takeWhile (fun c => c != '?' && c != '#')
      let path := if strStarts clean ("/".toList) then clean
                  else if clean.isEmpty then b.pathname
                  else dirOf b.pathname ++ clean
      some { protocol := b.protocol, origin := b.origin, pathname := path }

/-- The origin comparison `url.origin === new URL(baseUrl).origin ||
crawlSpecialProtocols` (an unparseable base throws inside the try block and
skips the link). -/
def crawlLinkOrigin (special : Bool) (u : URLParts) : Option URLParts → Option Str
  | none => none
  | some b => if u.origin == b.origin || special then some u.pathname else none

/-- The resolution tail of the loop body: a URL parse failure skips, a
non-http(s) protocol skips unless special protocols are enabled, then the
origin check decides. -/
def crawlLinkResolve (special : Bool) : Option URLParts → Option URLParts → Option Str
  | none, _ => none
  | some u, bo =>
    if !special && u.protocol != ("http:".toList) && u.protocol != ("https:".toList) then none
    else crawlLinkOrigin special u bo

/-- The per-href decision of the crawl loop in `extractLinksFromHtml`:
`some pathname` means the link is pushed, `none` that it is discarded. -/
def crawlLinkDecision (crawlSpecial : Bool) (base href : Str) : Option Str :=
  if strStarts href ("http".toList) || strStarts href ("//".toList) then none
  else if strStarts href ("#".toList) then none
  else if !crawlSpecial && skipProtocols.any (fun p => strStarts href p) then none
  else if !crawlSpecial && skipProtocols.any (fun p => strHasSub href p) then none
  else crawlLinkResolve crawlSpecial (jsURL href base) (parseBaseURL base)

/-- The discard condition as the amended claim states it: absolute/protocol-
relative href, fragment href, a denylisted scheme token contained anywhere
(with special protocols disabled), an unparseable href or base, a resolved
non-http(s) protocol, or a cross-origin resolution (both only with special
protocols disabled). -/
def CrawlDiscard (special : Bool) (base href : Str) : Prop :=
  strStarts href ("http".toList) = true ∨
  strStarts href ("//".toList) = true ∨
  strStarts href ("#".toList) = true ∨
  (special = false ∧ ∃ p ∈ skipProtocols, strHasSub href p = true) ∨
  jsURL href base = none ∨
  parseBaseURL base = none ∨
  (special = false ∧ ∃ u, jsURL href base = some u ∧
    u.protocol ≠ ("http:".toList) ∧ u.protocol ≠ ("https:".toList)) ∨
  (special = false ∧ ∃ u b, jsURL href base = some u ∧ parseBaseURL base = some b ∧
    u.origin ≠ b.origin)

lemma strStarts_hasSub (s p : Str) (h : strStarts s p = true) : strHasSub s p = true := by
  cases s with
  | nil => simpa [strHasSub] using h
  | cons c rest => simp [strHasSub, h]


/-- C6 (amended): a crawled href is discarded exactly when it starts with
`http` or `//` (all absolute and protocol-relative links, including
same-origin ones), is fragment-only, contains a denylisted scheme token
anywhere (when special-protocol crawling is disabled), fails URL resolution
(or the base does), resolves to a non-http(s) protocol, or resolves
cross-origin (the last two only with special protocols disabled); every kept
link contributes its resolved pathname. -/
theorem C6_link_filter (special : Bool) (base href : Str) :
    (crawlLinkDecision special base href = none ↔ CrawlDiscard special base href) ∧
    (∀ u, jsURL href base = some u → crawlLinkDecision special base href ≠ none →
      crawlLinkDecision special base href = some u.pathname) := by
  unfold crawlLinkDecision CrawlDiscard
  by_cases h1 : (strStarts href ("http".toList) || strStarts href ("//".toList)) = true
  · rw [if_pos h1]
    refine ⟨⟨fun _ => ?_, fun _ => rfl⟩, fun u _ hne => absurd rfl hne⟩
    rcases Bool.or_eq_true_iff.mp h1 with ha | hb
    · exact Or.inl ha
    · exact Or.inr (Or.inl hb)
  · rw [if_neg h1]
    simp only [Bool.or_eq_true, not_or, Bool.not_eq_true] at h1
    obtain ⟨h1a, h1b⟩ := h1
    by_cases h2 : strStarts href ("#".toList) = true
    · rw [if_pos h2]
      exact ⟨⟨fun _ => Or.inr (Or.inr (Or.inl h2)), fun _ => rfl⟩,
        fun u _ hne => absurd rfl hne⟩
    · rw [if_neg h2]
      simp only [Bool.not_eq_true] at h2
      by_cases h3 : (!special && skipProtocols.any (fun p => strStarts href p)) = true
      · rw [if_pos h3]
        have h3s : (!special) = true ∧ skipProtocols.any (fun p => strStarts href p) = true := by
          simpa [Bool.and_eq_true] using h3
        have hsp : special = false := by
          cases special
          · rfl
          · simpa using h3s.1
        obtain ⟨p, hp, hps⟩ := List.any_eq_true.mp h3s.2
        refine ⟨⟨fun _ => ?_, fun _ => rfl⟩, fun u _ hne => absurd rfl hne⟩
        exact Or.inr (Or.inr (Or.inr (Or.inl ⟨hsp, p, hp, strStarts_hasSub href p hps⟩)))
      · rw [if_neg h3]
        by_cases h4 : (!special && skipProtocols.any (fun p => strHasSub href p)) = true
        · rw [if_pos h4]
          have h4s : (!special) = true ∧ skipProtocols.any (fun p => strHasSub href p) = true := by
            simpa [Bool.and_eq_true] using h4
          have hsp : special = false := by
            cases special
            · rfl
            · simpa using h4s.1
          obtain ⟨p, hp, hps⟩ := List.any_eq_true.mp h4s.2
          refine ⟨⟨fun _ => ?_, fun _ => rfl⟩, fun u _ hne => absurd rfl hne⟩
          exact Or.inr (Or.inr (Or.inr (Or.inl ⟨hsp, p, hp, hps⟩)))
        · rw [if_neg h4]
          rcases hu : jsURL href base with _ | u
          · refine ⟨⟨fun _ => Or.inr (Or.inr (Or.inr (Or.inr (Or.inl (by trivial))))),
              fun _ => by trivial⟩, ?_⟩
            intro u2 hc
            cases hc
          · simp only [crawlLinkResolve]
            by_cases hp : (!special && u.protocol != ("http:".toList) &&
                u.protocol != ("https:".toList)) = true
            · rw [if_pos hp]
              have hps : ((!special) = true ∧ (u.protocol != ("http:".toList)) = true) ∧
                  (u.protocol != ("https:".toList)) = true := by
                simpa [Bool.and_eq_true] using hp
              have hsp : special = false := by
                cases special
                · rfl
                · simpa using hps.1.1
              refine ⟨⟨fun _ => ?_, fun _ => rfl⟩, fun u2 hu2 hne => absurd rfl hne⟩
              exact Or.inr (Or.inr (Or.inr (Or.inr (Or.inr (Or.inr (Or.inl
                ⟨hsp, u, rfl, bne_iff_ne.mp hps.1.2, bne_iff_ne.mp hps.2⟩))))))
            · rw [if_neg hp]
              rcases hb : parseBaseURL base with _ | b
              · simp only [crawlLinkOrigin]
                refine ⟨⟨fun _ => Or.inr (Or.inr (Or.inr (Or.inr (Or.inr (Or.inl (by trivial)))))),
                  fun _ => by trivial⟩, fun u2 hu2 hne => absurd (by trivial) hne⟩
              · simp only [crawlLinkOrigin]
                by_cases ho : (u.origin == b.origin || special) = true
                · rw [if_pos ho]
                  refine ⟨⟨?_, ?_⟩, ?_⟩
                  · intro hc
                    cases hc
                  · intro hd
                    exfalso
                    rcases hd with d | d | d | d | d | d | d | d
                    · exact absurd d (ne_true_of_eq_false h1a)
                    · exact absurd d (ne_true_of_eq_false h1b)
                    · exact absurd d (ne_true_of_eq_false h2)
                    · obtain ⟨hsf, p, hpmem, hpc⟩ := d
                      rw [hsf] at h4
                      have hany : skipProtocols.any (fun p => strHasSub href p) = true :=
                        List.any_eq_true.mpr ⟨p, hpmem, hpc⟩
                      rw [hany] at h4
                      simp at h4
                    · cases d
                    · cases d
                    · obtain ⟨hsf, u2, hu2, hq1, hq2⟩ := d
                      have hequ : u = u2 := by injection hu2
                      subst hequ
                      rw [hsf] at hp
                      apply hp
                      simp only [Bool.and_eq_true, bne_iff_ne]
                      refine ⟨⟨by simp, hq1⟩, hq2⟩
                    · obtain ⟨hsf, u2, b2, hu2, hb2, hq⟩ := d
                      have hequ : u = u2 := by injection hu2
                      have heqb : b = b2 := by injection hb2
                      subst hequ
                      subst heqb
                      rw [hsf] at ho
                      rcases Bool.or_eq_true_iff.mp ho with hoe | hoe
                      · exact hq (beq_iff_eq.mp hoe)
                      · cases hoe
                  · intro u2 hu2 _
                    have hequ : u = u2 := by injection hu2
                    subst hequ
                    rfl
                · rw [if_neg ho]
                  simp only [Bool.or_eq_true, not_or, Bool.not_eq_true] at ho
                  refine ⟨⟨fun _ => ?_, fun _ => rfl⟩, fun u2 hu2 hne => absurd rfl hne⟩
                  refine Or.inr (Or.inr (Or.inr (Or.inr (Or.inr (Or.inr (Or.inr
                    ⟨ho.2, u, b, rfl, rfl, ?_⟩))))))
                  intro he
                  rw [he] at ho
                  simp at ho

def c6Base : Str := "http://localhost:3000/".toList

/-- C6 witness: a denylisted-scheme link is discarded via the contains check,
and a relative same-origin link is kept with its resolved pathname. -/
theorem C6_link_filter_witness :
    crawlLinkDecision false c6Base ("mailto:bob@example.com".toList) = none ∧
    crawlLinkDecision false c6Base ("/about".toList) = some ("/about".toList) := by
  constructor
  · exact (C6_link_filter false c6Base ("mailto:bob@example.com".toList)).1.mpr
      (Or.inr (Or.inr (Or.inr (Or.inl ⟨rfl, "mailto:".toList, by decide, by decide⟩))))
  · exact (C6_link_filter false c6Base ("/about".toList)).2
      ⟨"http:".toList, "http://localhost:3000".toList, "/about".toList⟩
      (by decide) (by decide)

/-- C6 counterexample: an absolute same-origin link is discarded by the
`startsWith('http')` check although it is same-origin, not fragment-only, and
uses no denylisted scheme — refuting "discarded if and only if cross-origin,
fragment-only, or denylisted" and "every same-origin link is enqueued". -/
theorem C6_counterexample_same_origin_absolute :
    crawlLinkDecision false c6Base ("http://localhost:3000/about".toList) = none ∧
    (jsURL ("http://localhost:3000/about".toList) c6Base).map URLParts.origin =
      (parseBaseURL c6Base).map URLParts.origin ∧
    strStarts ("http://localhost:3000/about".toList) ("#".toList) = false ∧
    skipProtocols.all
      (fun p => !(strHasSub ("http://localhost:3000/about".toList) p)) = true := by
  refine ⟨by decide, by decide, by decide, by decide⟩
